import Mathlib

/-!
Verification of the MeterFlow usage-integrity core against its source.

Each section embeds one source module as Lean definitions and proves the
specification claims about it:
* fraud vectors (src/utils/fraud/vectors.ts)
* fraud detection (src/utils/fraud/detection.ts)
* the volume anomaly detector module (checkAnomaly)
* usage aggregation (src/utils/usage.ts)
* sliding-window rate limiting (src/utils/ratelimit.ts)
* transaction dedup (checkAndMarkTransaction, checkAndMarkTransactions)

Conventions: JS floating-point numbers are modelled as real numbers,
JS Math.round as Mathlib round (both round half toward positive
infinity), and the IEEE infinities produced by the z-score computation as
an explicit extended-value type.  External stores (ClickHouse, Redis) are
modelled by explicit values: the list of events a query scans, the sorted
set behind a rate-limit key, the key set behind the dedup markers.
-/

namespace MeterFlow

namespace Fraud

/-- JS Math.round as an integer: Mathlib round x = floor (x + 1/2), which
matches Math.round including its behavior on ties and negatives. -/
noncomputable def jsRound (x : ℝ) : ℤ := round x

/-- Math.round(x * 1000) / 1000, the 3-decimal display rounding. -/
noncomputable def round3 (x : ℝ) : ℝ := (jsRound (x * 1000) : ℝ) / 1000

/-- Math.round(x * 10) / 10, the 1-decimal display rounding. -/
noncomputable def round1 (x : ℝ) : ℝ := (jsRound (x * 10) : ℝ) / 10

/-- normalizeVector from vectors.ts: scale a vector so its elements sum
to 1, returning the all-zero vector when the sum is 0. -/
noncomputable def normalizeVector (counts : List ℝ) : List ℝ :=
  if counts.sum = 0 then counts.map (fun _ => 0)
  else counts.map (fun c => c / counts.sum)

/-- cosineSimilarity from vectors.ts: dot(a,b) / (|a| * |b|), erroring on a
length mismatch and returning 0 when the denominator is 0. -/
noncomputable def cosineSimilarity (a b : List ℝ) : Except String ℝ :=
  if a.length ≠ b.length then Except.error "Vectors must have same length"
  else
    let dotProduct := ((a.zip b).map (fun p => p.1 * p.2)).sum
    let normA := (a.map (fun x => x * x)).sum
    let normB := (b.map (fun x => x * x)).sum
    let denominator := Real.sqrt normA * Real.sqrt normB
    if denominator = 0 then Except.ok 0
    else Except.ok (dotProduct / denominator)

/-- HourlyVector from the fraud types: the normalized 24-hour usage shape
of one customer/metric/date plus the un-normalized daily total. -/
structure HourlyVector where
  customer_id : String
  metric : String
  date : String
  weekday : String
  vector : List ℝ
  total_count : ℝ

/-- The pure tail of generateHourlyVector from vectors.ts, applied to the
24-element array of hourly aggregates the ClickHouse query produced:
the stored vector is the normalized counts, total_count their raw sum. -/
noncomputable def hourlyVectorOfCounts (customer_id metric date weekday : String)
    (hourlyCounts : List ℝ) : HourlyVector :=
  { customer_id := customer_id
    metric := metric
    date := date
    weekday := weekday
    vector := normalizeVector hourlyCounts
    total_count := hourlyCounts.sum }

/-- Scatter the query rows (hour, value) into a fresh 24-element array,
mirroring the hourlyCounts loop of generateHourlyVector. -/
def scatterRows (rows : List (ℕ × ℝ)) : List ℝ :=
  rows.foldl (fun acc r => acc.set r.1 r.2) (List.replicate 24 0)

/-- generateHourlyVector from vectors.ts with the ClickHouse response
passed in as the list of (hour, value) rows; the weekday string computed
by getWeekday is passed in alongside the date. -/
noncomputable def generateHourlyVector (customer_id metric date weekday : String)
    (rows : List (ℕ × ℝ)) : HourlyVector :=
  hourlyVectorOfCounts customer_id metric date weekday (scatterRows rows)

/-- The fraud_type values of FraudCheckResult. -/
inductive FraudType
  | pattern
  | volume
  | both
deriving DecidableEq

/-- A stored weekday baseline as read back by getBaseline. -/
structure BaselineRecord where
  vector : List ℝ
  avg_volume : ℝ

/-- FraudCheckResult from the fraud types. -/
structure FraudCheckResult where
  customer_id : String
  metric : String
  date : String
  similarity : ℝ
  volume_change_percent : ℝ
  is_fraud : Bool
  fraud_type : Option FraudType
  current_vector : List ℝ
  baseline_vector : List ℝ
  baseline_volume : ℝ

def SIMILARITY_THRESHOLD : ℝ := 0.9

def VOLUME_CHANGE_THRESHOLD : ℝ := 50

/-- The volume-change computation of checkFraud: percentage change of the
current total against the baseline average, 0 when the baseline is 0. -/
noncomputable def volumeChangeOf (total_count avg_volume : ℝ) : ℝ :=
  if avg_volume > 0 then ((total_count - avg_volume) / avg_volume) * 100 else 0

/-- checkFraud from detection.ts, with the two store reads (the current
day's HourlyVector and the optional weekday baseline) passed in as values.
Mirrors the source exactly: neutral result when no baseline exists,
cosine-similarity and volume-change computation, the pattern/volume
classification, and the masking of fraud_type by is_fraud on return. -/
noncomputable def checkFraud (currentVector : HourlyVector)
    (baseline : Option BaselineRecord) : Except String FraudCheckResult :=
  match baseline with
  | none =>
      Except.ok
        { customer_id := currentVector.customer_id
          metric := currentVector.metric
          date := currentVector.date
          similarity := 1
          volume_change_percent := 0
          is_fraud := false
          fraud_type := none
          current_vector := currentVector.vector
          baseline_vector := List.replicate 24 0
          baseline_volume := 0 }
  | some b =>
      match cosineSimilarity currentVector.vector b.vector with
      | Except.error e => Except.error e
      | Except.ok similarity =>
          let volumeChange := volumeChangeOf currentVector.total_count b.avg_volume
          let isPatternAnomaly : Bool := decide (similarity < SIMILARITY_THRESHOLD)
          let isVolumeNormal : Bool := decide (|volumeChange| < VOLUME_CHANGE_THRESHOLD)
          let isFraud : Bool := isPatternAnomaly && isVolumeNormal
          let fraudType : Option FraudType :=
            if isPatternAnomaly && !isVolumeNormal then some FraudType.both
            else if isPatternAnomaly then some FraudType.pattern
            else if !isVolumeNormal then some FraudType.volume
            else none
          Except.ok
            { customer_id := currentVector.customer_id
              metric := currentVector.metric
              date := currentVector.date
              similarity := round3 similarity
              volume_change_percent := round1 volumeChange
              is_fraud := isFraud
              fraud_type := if isFraud then fraudType else none
              current_vector := currentVector.vector
              baseline_vector := b.vector
              baseline_volume := b.avg_volume }

end Fraud

namespace Anomaly

/-- A JS number that may be an IEEE infinity, as produced by the z-score
computation of checkAnomaly. -/
inductive ZVal
  | fin (x : ℝ)
  | posInf
  | negInf

/-- Math.round(x * 100) / 100, the 2-decimal display rounding. -/
noncomputable def round2 (x : ℝ) : ℝ := (round (x * 100) : ℤ) / 100

/-- The 2-decimal display rounding applied to a possibly-infinite z-score:
rounding leaves the infinities unchanged. -/
noncomputable def roundZ : ZVal → ZVal
  | ZVal.fin x => ZVal.fin (round2 x)
  | ZVal.posInf => ZVal.posInf
  | ZVal.negInf => ZVal.negInf

/-- The baseline mean computed by checkAnomaly: the average of the per-day
aggregates, left at its initial 0 when there are no samples. -/
noncomputable def meanOf (values : List ℝ) : ℝ :=
  if values.length > 0 then values.sum / values.length else 0

/-- The sample standard deviation computed by checkAnomaly: square root of
the n-1-denominator variance, left at its initial 0 when sampleCount is
not greater than 1. -/
noncomputable def stddevOf (values : List ℝ) : ℝ :=
  if values.length > 1 then
    Real.sqrt (((values.map (fun v => (v - meanOf values) ^ 2)).sum) /
      ((values.length : ℝ) - 1))
  else 0

/-- The z-score computed by checkAnomaly: (current - mean) / stddev when
stddev is positive, a signed infinity when stddev is 0 but the current
value differs from the mean, and the initial 0 otherwise (in particular
whenever sampleCount is 0). -/
noncomputable def zScoreOf (values : List ℝ) (currentValue : ℝ) : ZVal :=
  if values.length > 0 then
    if stddevOf values > 0 then
      ZVal.fin ((currentValue - meanOf values) / stddevOf values)
    else if currentValue ≠ meanOf values then
      (if currentValue > meanOf values then ZVal.posInf else ZVal.negInf)
    else ZVal.fin 0
  else ZVal.fin 0

/-- Math.abs of a possibly-infinite z-score is at least the threshold t;
both infinities have absolute value Infinity, which exceeds any finite
threshold. -/
def zAbsGe (z : ZVal) (t : ℝ) : Prop :=
  match z with
  | ZVal.fin x => |x| ≥ t
  | ZVal.posInf => True
  | ZVal.negInf => True

noncomputable instance (z : ZVal) (t : ℝ) : Decidable (zAbsGe z t) :=
  match z with
  | ZVal.fin x => inferInstanceAs (Decidable (|x| ≥ t))
  | ZVal.posInf => Decidable.isTrue trivial
  | ZVal.negInf => Decidable.isTrue trivial

/-- The severity scale of AnomalyCheckResult. -/
inductive Severity
  | normal
  | warning
  | critical
deriving DecidableEq

/-- The baseline block of AnomalyCheckResult. -/
structure BaselineStats where
  mean : ℝ
  stddev : ℝ
  sample_count : ℕ

/-- AnomalyCheckResult, restricted to the fields the detector computes
(identifiers and the echoed period are omitted). -/
structure AnomalyCheckResult where
  current_value : ℝ
  baseline : BaselineStats
  z_score : ZVal
  is_anomaly : Bool
  severity : Severity

/-- The statistical core of checkAnomaly, applied to the per-day baseline
aggregates returned by the ClickHouse baseline query, the current period
value, and the threshold.  Mirrors the source: mean/stddev/z-score as in
meanOf/stddevOf/zScoreOf, severity critical when the absolute z-score
reaches the threshold, warning when it reaches threshold * 0.66, normal
otherwise; is_anomaly is set only in the critical branch; the returned
mean, stddev and z-score are display-rounded to 2 decimals. -/
noncomputable def checkAnomaly (values : List ℝ) (currentValue threshold : ℝ) :
    AnomalyCheckResult :=
  let z := zScoreOf values currentValue
  let sa : Severity × Bool :=
    if zAbsGe z threshold then (Severity.critical, true)
    else if zAbsGe z (threshold * 0.66) then (Severity.warning, false)
    else (Severity.normal, false)
  { current_value := currentValue
    baseline :=
      { mean := round2 (meanOf values)
        stddev := round2 (stddevOf values)
        sample_count := values.length }
    z_score := roundZ z
    is_anomaly := sa.2
    severity := sa.1 }

end Anomaly

namespace Usage

/-- A property value of a UsageEvent: string, number, or boolean. -/
inductive PropValue
  | str (s : String)
  | num (q : ℚ)
  | bool (b : Bool)
deriving DecidableEq

/-- A usage event as stored in the events table; numeric data is modelled
exactly as rationals, the timestamp as a rational epoch instant. -/
structure UsageEvent where
  transaction_id : String
  customer_id : String
  event_type : String
  timestamp : ℚ
  properties : List (String × PropValue)
deriving DecidableEq

/-- The aggregation kinds of a BillableMetric. -/
inductive AggKind
  | count
  | sum
  | max
deriving DecidableEq

/-- A BillableMetric catalog entry (the display name and description are
omitted). -/
structure BillableMetric where
  code : String
  event_type : String
  aggregation : AggKind
  property : Option String
  unit : String
deriving DecidableEq

/-- ClickHouse JSONExtractFloat over the property map: the numeric value
of the named property, 0 when the property is missing or not a number. -/
def jsonExtractFloat (props : List (String × PropValue)) (name : String) : ℚ :=
  match props.lookup name with
  | some (PropValue.num q) => q
  | _ => 0

/-- ClickHouse JSONExtractString over the property map: the string value
of the named property, the empty string when missing or not a string. -/
def jsonExtractString (props : List (String × PropValue)) (name : String) : String :=
  match props.lookup name with
  | some (PropValue.str s) => s
  | _ => ""

/-- The WHERE clause shared by both queryUsage queries: customer, event
type, and the inclusive timestamp range. -/
def matchesQuery (cid etype : String) (startTs stopTs : ℚ) (e : UsageEvent) : Bool :=
  e.customer_id == cid && e.event_type == etype &&
    decide (startTs ≤ e.timestamp) && decide (e.timestamp ≤ stopTs)

/-- The ClickHouse reduction for one aggregation kind over a set of rows:
count of rows, sum of the extracted property, or its maximum (ClickHouse
returns the type default 0 for max over an empty selection). -/
def aggValue (agg : AggKind) (propName : String) (evs : List UsageEvent) : ℚ :=
  match agg with
  | AggKind.count => (evs.length : ℚ)
  | AggKind.sum => (evs.map (fun e => jsonExtractFloat e.properties propName)).sum
  | AggKind.max =>
      match evs.map (fun e => jsonExtractFloat e.properties propName) with
      | [] => 0
      | x :: xs => xs.foldl (fun a b => Max.max a b) x

/-- The GROUP BY dimension of an event: the string value of the group_by
property ("" when the event lacks it). -/
def dimensionOf (g : String) (e : UsageEvent) : String := jsonExtractString e.properties g

/-- The distinct dimension values of a selection, one per GROUP BY
result row (row order is not modelled; the source orders rows by value). -/
def groupDims (g : String) (evs : List UsageEvent) : List String :=
  (evs.map (dimensionOf g)).dedup

/-- The GROUP BY result rows: one (dimension, aggregate) pair per distinct
dimension value. -/
def groupedRows (agg : AggKind) (propName g : String) (evs : List UsageEvent) :
    List (String × ℚ) :=
  (groupDims g evs).map
    (fun d => (d, aggValue agg propName (evs.filter (fun e => decide (dimensionOf g e = d)))))

/-- A JS object assignment obj[k] = v: overwrite the entry when the key is
present, append it otherwise. -/
def insertJs (m : List (String × ℚ)) (k : String) (v : ℚ) : List (String × ℚ) :=
  if m.any (fun p => decide (p.1 = k)) then m.map (fun p => if p.1 = k then (k, v) else p)
  else m ++ [(k, v)]

/-- The breakdown key of a dimension: a falsy ("") dimension is stored
under the explicit "(empty)" bucket. -/
def bucketKey (d : String) : String := if d = "" then "(empty)" else d

/-- The breakdown/total loop of queryUsage: each row is stored in the
breakdown object under its bucket key while the row values accumulate
into the total. -/
def buildBreakdown (rows : List (String × ℚ)) : List (String × ℚ) × ℚ :=
  rows.foldl
    (fun acc row => (insertJs acc.1 (bucketKey row.1) row.2, acc.2 + row.2))
    ([], 0)

/-- UsageQueryResponse (the echoed period is omitted). -/
structure UsageQueryResponse where
  customer_id : String
  metric : String
  value : ℚ
  unit : String
  breakdown : Option (List (String × ℚ))
deriving DecidableEq

/-- queryUsage from usage.ts with the event store passed in as the list of
events the queries scan.  Mirrors the source: catalog lookup with an
UnknownMetric error, the missing-property errors for SUM/MAX, the grouped
query building a breakdown plus summed total, and the ungrouped query
returning the single aggregate. -/
def queryUsage (catalog : List BillableMetric) (events : List UsageEvent)
    (customer_id metric : String) (startTs stopTs : ℚ) (group_by : Option String) :
    Except String UsageQueryResponse :=
  match catalog.find? (fun m => m.code == metric) with
  | none => Except.error ("Unknown metric: " ++ metric)
  | some metricDef =>
      let propNeeded : Except String String :=
        match metricDef.aggregation with
        | AggKind.count => Except.ok ""
        | AggKind.sum =>
            match metricDef.property with
            | none => Except.error ("SUM metric requires a property: " ++ metric)
            | some p => Except.ok p
        | AggKind.max =>
            match metricDef.property with
            | none => Except.error ("MAX metric requires a property: " ++ metric)
            | some p => Except.ok p
      match propNeeded with
      | Except.error e => Except.error e
      | Except.ok propName =>
          let filtered :=
            events.filter (matchesQuery customer_id metricDef.event_type startTs stopTs)
          match group_by with
          | some g =>
              let rows := groupedRows metricDef.aggregation propName g filtered
              let bt := buildBreakdown rows
              Except.ok
                { customer_id := customer_id
                  metric := metric
                  value := bt.2
                  unit := metricDef.unit
                  breakdown := some bt.1 }
          | none =>
              Except.ok
                { customer_id := customer_id
                  metric := metric
                  value := aggValue metricDef.aggregation propName filtered
                  unit := metricDef.unit
                  breakdown := none }

end Usage

namespace RateLimit

/-- RATE_LIMIT_WINDOW_SECONDS from the auth config. -/
def RATE_LIMIT_WINDOW_SECONDS : ℤ := 60

/-- The Redis sorted set behind one customer's rate-limit key: a list of
(member, score) entries, members unique. -/
abbrev SortedSet := List (String × ℤ)

/-- ZREMRANGEBYSCORE key lo hi: drop every entry whose score lies in the
inclusive range. -/
def zremrangebyscore (s : SortedSet) (lo hi : ℤ) : SortedSet :=
  s.filter (fun e => !(decide (lo ≤ e.2) && decide (e.2 ≤ hi)))

/-- ZADD key score member: update the score when the member exists,
append the entry otherwise. -/
def zadd (s : SortedSet) (score : ℤ) (member : String) : SortedSet :=
  if s.any (fun e => e.1 == member) then
    s.map (fun e => if e.1 == member then (member, score) else e)
  else s ++ [(member, score)]

/-- ZCARD key: the number of entries. -/
def zcard (s : SortedSet) : ℕ := s.length

/-- RateLimitResult from the auth types. -/
structure RateLimitResult where
  allowed : Bool
  limit : ℤ
  remaining : ℤ
  reset_in_seconds : ℤ
deriving DecidableEq

/-- checkRateLimit from ratelimit.ts, with the customer's sorted set
passed in as the state and the clock as nowSeconds; the random member of
the current attempt is a parameter.  Mirrors the pipelined commands:
remove entries scored in [0, now - window], add the current attempt,
count, then allowed = count less-or-equal limit and remaining =
max(0, limit - count); returns the result with the updated set.  The
trailing EXPIRE only bounds the Redis key's lifetime and does not change
the set, so it has no counterpart in this state model. -/
def checkRateLimit (s : SortedSet) (nowSeconds : ℤ) (member : String) (limit : ℤ) :
    RateLimitResult × SortedSet :=
  let windowStart := nowSeconds - RATE_LIMIT_WINDOW_SECONDS
  let s1 := zremrangebyscore s 0 windowStart
  let s2 := zadd s1 nowSeconds member
  let currentCount : ℤ := (zcard s2 : ℤ)
  ({ allowed := decide (currentCount ≤ limit)
     limit := limit
     remaining := Max.max 0 (limit - currentCount)
     reset_in_seconds := RATE_LIMIT_WINDOW_SECONDS }, s2)

end RateLimit

namespace Dedup

/-- The dedup marker TTL: 30 days in seconds. -/
def DEDUP_TTL_SECONDS : ℕ := 30 * 24 * 60 * 60

/-- The Redis key of a transaction marker: the dedup key namespace
followed by the transaction id. -/
def dedupKey (txId : String) : String := "dedup:" ++ txId

/-- SET key value NX over the marker key set: returns the Redis reply
(OK when the key was set, nil when it already existed) and the updated
key set. -/
def setNX (store : List String) (key : String) : Option String × List String :=
  if key ∈ store then (none, store) else (some "OK", key :: store)

/-- A healthy Redis pipeline of SET NX commands: each command runs in
order against the store, each reply is paired with a nil error. -/
def execPipelineOk (store : List String) (keys : List String) :
    List (Option String × Option String) × List String :=
  match keys with
  | [] => ([], store)
  | k :: ks =>
      let r := setNX store k
      let rest := execPipelineOk r.2 ks
      ((none, r.1) :: rest.1, rest.2)

/-- A JS Map.set: overwrite the value when the key is present, append the
entry otherwise. -/
def mapSet (m : List (String × Bool)) (k : String) (v : Bool) : List (String × Bool) :=
  if m.any (fun p => decide (p.1 = k)) then m.map (fun p => if p.1 = k then (k, v) else p)
  else m ++ [(k, v)]

/-- A JS Map.get: the value stored under the key, none when absent. -/
def mapGet : List (String × Bool) → String → Option Bool
  | [], _ => none
  | p :: rest, k => if p.1 = k then some p.2 else mapGet rest k

/-- The result-collection loop of checkAndMarkTransactions: walk the ids
against the per-command (error, reply) pairs, abort with the first
command error, otherwise record isNew = (reply == OK) for the id
(overwriting any earlier entry for the same id).  A missing pipeline
entry aborts as the source would when destructuring undefined. -/
def collectResults : List String → List (Option String × Option String) →
    List (String × Bool) → Except String (List (String × Bool))
  | [], _, m => Except.ok m
  | _ :: _, [], _ => Except.error "missing pipeline result"
  | id :: ids, pr :: prs, m =>
      match pr.1 with
      | some e => Except.error e
      | none => collectResults ids prs (mapSet m id (pr.2 == some "OK"))

/-- checkAndMarkTransactions from the dedup module, with the pipeline
response passed in (none models pipeline.exec() returning null).
Mirrors the source: empty batches return the empty map without touching
Redis, a null pipeline response raises, any per-command error raises,
otherwise the id-to-isNew map is built from the replies. -/
def checkAndMarkTransactions (transactionIds : List String)
    (pipelineResults : Option (List (Option String × Option String))) :
    Except String (List (String × Bool)) :=
  if transactionIds.isEmpty then Except.ok []
  else
    match pipelineResults with
    | none => Except.error "Redis pipeline failed"
    | some prs => collectResults transactionIds prs []

/-- One whole batched call against a healthy store: build the dedup keys,
run the pipeline against the marker key set, and collect the results;
returns the outcome of checkAndMarkTransactions and the updated key set. -/
def runBatch (store : List String) (transactionIds : List String) :
    Except String (List (String × Bool)) × List String :=
  let keys := transactionIds.map dedupKey
  let ex := execPipelineOk store keys
  (checkAndMarkTransactions transactionIds (some ex.1), ex.2)

end Dedup

/-- The value carried by a successful similarity computation (0 for the
error case, which the bounds theorem rules out). -/
noncomputable def simValue (a b : List ℝ) : ℝ :=
  match Fraud.cosineSimilarity a b with
  | Except.ok s => s
  | Except.error _ => 0

/-! ## Concrete fixtures used by counterexamples and witnesses -/

/-- A 24-hour shape with all usage in hour 0. -/
def hourZeroShape : List ℝ :=
  [1, 0, 0, 0, 0, 0, 0, 0, 0, 0, 0, 0, 0, 0, 0, 0, 0, 0, 0, 0, 0, 0, 0, 0]

/-- A 24-hour shape with all usage in hour 1. -/
def hourOneShape : List ℝ :=
  [0, 1, 0, 0, 0, 0, 0, 0, 0, 0, 0, 0, 0, 0, 0, 0, 0, 0, 0, 0, 0, 0, 0, 0]

/-- A day whose usage shape moved to hour 0 and whose volume doubled. -/
def shiftedDoubledDay : Fraud.HourlyVector :=
  { customer_id := "c1"
    metric := "api_calls"
    date := "2025-01-06"
    weekday := "monday"
    vector := hourZeroShape
    total_count := 200 }

/-- A Monday baseline concentrated in hour 1 with average volume 100. -/
def hourOneBaseline : Fraud.BaselineRecord :=
  { vector := hourOneShape
    avg_volume := 100 }

/-- A day that matches the hour-0 baseline exactly, at its usual volume. -/
def unchangedDay : Fraud.HourlyVector :=
  { customer_id := "c1"
    metric := "api_calls"
    date := "2025-01-06"
    weekday := "monday"
    vector := hourZeroShape
    total_count := 100 }

/-- A Monday baseline concentrated in hour 0 with average volume 100. -/
def hourZeroBaseline : Fraud.BaselineRecord :=
  { vector := hourZeroShape
    avg_volume := 100 }

/-- A one-entry catalog with the MAX-aggregated storage metric. -/
def maxCatalog : List Usage.BillableMetric :=
  [{ code := "storage_peak"
     event_type := "storage"
     aggregation := Usage.AggKind.max
     property := some "gb_stored"
     unit := "GB" }]

/-- Two storage events of one customer in different regions, peaking at 5
and 7 GB. -/
def twoRegionEvents : List Usage.UsageEvent :=
  [{ transaction_id := "t1"
     customer_id := "c"
     event_type := "storage"
     timestamp := 5
     properties := [("gb_stored", Usage.PropValue.num 5), ("region", Usage.PropValue.str "a")] },
   { transaction_id := "t2"
     customer_id := "c"
     event_type := "storage"
     timestamp := 6
     properties := [("gb_stored", Usage.PropValue.num 7), ("region", Usage.PropValue.str "b")] }]

/-- The COUNT-aggregated api_calls metric. -/
def countMetric : Usage.BillableMetric :=
  { code := "api_calls"
    event_type := "api_request"
    aggregation := Usage.AggKind.count
    property := none
    unit := "calls" }

/-- A one-entry catalog with the COUNT-aggregated api_calls metric. -/
def countCatalog : List Usage.BillableMetric := [countMetric]

/-- Two api_request events, one tagged with a region and one lacking the
region property. -/
def regionAndBareEvents : List Usage.UsageEvent :=
  [{ transaction_id := "t1"
     customer_id := "c"
     event_type := "api_request"
     timestamp := 5
     properties := [("region", Usage.PropValue.str "a")] },
   { transaction_id := "t2"
     customer_id := "c"
     event_type := "api_request"
     timestamp := 6
     properties := [] }]

/-! ## Helper lemmas -/

/-- Dividing every element of a list divides its sum. -/
theorem listSum_map_div (l : List ℝ) (s : ℝ) :
    (l.map fun c => c / s).sum = l.sum / s := by
  induction l with
  | nil => simp
  | cons x xs ih => simp [ih, add_div]

/-- A list of non-negative reals sums to 0 exactly when every element is 0. -/
theorem listSum_eq_zero_iff (l : List ℝ) (h : ∀ x ∈ l, 0 ≤ x) :
    l.sum = 0 ↔ ∀ x ∈ l, x = 0 := by
  constructor
  · intro hs x hx
    exact List.all_zero_of_le_zero_le_of_sum_eq_zero h hs hx
  · intro hz
    exact List.sum_eq_zero hz

/-! ## C7: vector normalization (normalizeVector / generateHourlyVector) -/

/-- C7: for every 24-element array of non-negative hourly counts, the
HourlyVector produced by normalization has elements summing to 1 when the
raw counts are not all zero, is the all-zero vector exactly when the daily
total is zero, and carries the un-normalized raw sum as total_count. -/
theorem hourlyVector_normalization (cid m d w : String) (counts : List ℝ)
    (hlen : counts.length = 24) (hpos : ∀ x ∈ counts, 0 ≤ x) :
    (¬ (∀ x ∈ counts, x = 0) →
      (Fraud.hourlyVectorOfCounts cid m d w counts).vector.sum = 1) ∧
    ((∀ x ∈ (Fraud.hourlyVectorOfCounts cid m d w counts).vector, x = 0) ↔
      counts.sum = 0) ∧
    (Fraud.hourlyVectorOfCounts cid m d w counts).total_count = counts.sum := by
  have hvec : (Fraud.hourlyVectorOfCounts cid m d w counts).vector =
      Fraud.normalizeVector counts := rfl
  by_cases hs : counts.sum = 0
  · refine ⟨?_, ?_, rfl⟩
    · intro hnz
      exact absurd ((listSum_eq_zero_iff counts hpos).mp hs) hnz
    · rw [hvec]
      unfold Fraud.normalizeVector
      simp [hs]
  · have hone : (Fraud.hourlyVectorOfCounts cid m d w counts).vector.sum = 1 := by
      rw [hvec]
      unfold Fraud.normalizeVector
      rw [if_neg hs, listSum_map_div, div_self hs]
    refine ⟨fun _ => hone, ?_, rfl⟩
    constructor
    · intro hz
      have : (Fraud.hourlyVectorOfCounts cid m d w counts).vector.sum = 0 :=
        List.sum_eq_zero hz
      rw [hone] at this
      exact absurd this one_ne_zero
    · intro hc
      exact absurd hc hs

/-- Witness for C7 at a concrete input: a day with one call in hour 0. -/
theorem hourlyVector_normalization_witness :
    (¬ (∀ x ∈ (1 : ℝ) :: List.replicate 23 (0 : ℝ), x = 0) →
      (Fraud.hourlyVectorOfCounts "c1" "api_calls" "2025-01-06" "monday"
        ((1 : ℝ) :: List.replicate 23 (0 : ℝ))).vector.sum = 1) ∧
    ((∀ x ∈ (Fraud.hourlyVectorOfCounts "c1" "api_calls" "2025-01-06" "monday"
        ((1 : ℝ) :: List.replicate 23 (0 : ℝ))).vector, x = 0) ↔
      ((1 : ℝ) :: List.replicate 23 (0 : ℝ)).sum = 0) ∧
    (Fraud.hourlyVectorOfCounts "c1" "api_calls" "2025-01-06" "monday"
        ((1 : ℝ) :: List.replicate 23 (0 : ℝ))).total_count =
      ((1 : ℝ) :: List.replicate 23 (0 : ℝ)).sum :=
  hourlyVector_normalization "c1" "api_calls" "2025-01-06" "monday" _
    (by simp) (by
      intro x hx
      rcases List.mem_cons.mp hx with h | h
      · rw [h]; norm_num
      · rw [List.eq_of_mem_replicate h])

/-! ## C8: checkFraud with no weekday baseline -/

/-- C8: when no WeekdayBaseline exists for the weekday, checkFraud returns
the neutral result (similarity 1, volume change 0, not fraud, no fraud
type, all-zero baseline vector, baseline volume 0) as a normal value, not
an error. -/
theorem checkFraud_missing_baseline_neutral (cv : Fraud.HourlyVector) :
    Fraud.checkFraud cv none = Except.ok
      { customer_id := cv.customer_id
        metric := cv.metric
        date := cv.date
        similarity := 1
        volume_change_percent := 0
        is_fraud := false
        fraud_type := none
        current_vector := cv.vector
        baseline_vector := List.replicate 24 0
        baseline_volume := 0 } := rfl

/-! ## C2: z-score with a zero-stddev baseline -/

/-- Counterexample to C2 as stated: with an empty baseline (sample_count
0, hence stddev 0) and current value 5 above the mean 0, checkAnomaly
returns z_score 0, not the positive infinity the claim requires. -/
theorem checkAnomaly_empty_baseline_cex :
    (Anomaly.checkAnomaly [] 5 3).z_score = Anomaly.ZVal.fin 0 ∧
    Anomaly.stddevOf [] = 0 ∧
    Anomaly.meanOf [] < 5 ∧
    (Anomaly.checkAnomaly [] 5 3).baseline.sample_count = 0 := by
  refine ⟨?_, ?_, ?_, rfl⟩
  · show Anomaly.roundZ (Anomaly.zScoreOf [] 5) = Anomaly.ZVal.fin 0
    norm_num [Anomaly.zScoreOf, Anomaly.roundZ, Anomaly.round2]
  · norm_num [Anomaly.stddevOf]
  · norm_num [Anomaly.meanOf]

/-- C2 amended: when the baseline stddev is 0 and sample_count is at
least 1, the returned z_score is 0 when the current value equals the
mean, positive infinity when above, negative infinity when below; with
sample_count 0 the z_score is 0 regardless of the current value. -/
theorem checkAnomaly_zero_stddev (values : List ℝ) (cv t : ℝ)
    (hsd : Anomaly.stddevOf values = 0) :
    (Anomaly.checkAnomaly values cv t).z_score =
      (if values = [] then Anomaly.ZVal.fin 0
       else if cv = Anomaly.meanOf values then Anomaly.ZVal.fin 0
       else if Anomaly.meanOf values < cv then Anomaly.ZVal.posInf
       else Anomaly.ZVal.negInf) := by
  have hz : (Anomaly.checkAnomaly values cv t).z_score =
      Anomaly.roundZ (Anomaly.zScoreOf values cv) := rfl
  rw [hz]
  by_cases hnil : values = []
  · subst hnil
    norm_num [Anomaly.zScoreOf, Anomaly.roundZ, Anomaly.round2]
  · have hlen : values.length > 0 := List.length_pos.mpr hnil
    rw [if_neg hnil]
    unfold Anomaly.zScoreOf
    rw [if_pos hlen, if_neg (by rw [hsd]; exact lt_irrefl 0)]
    by_cases he : cv = Anomaly.meanOf values
    · norm_num [he, Anomaly.roundZ, Anomaly.round2]
    · by_cases hgt : Anomaly.meanOf values < cv
      · simp [he, hgt, Anomaly.roundZ]
      · simp [he, hgt, Anomaly.roundZ]

/-- Witness for C2 amended: baseline [2, 2] has stddev 0, current value 3
lies above the mean 2, giving z_score positive infinity. -/
theorem checkAnomaly_zero_stddev_witness :
    (Anomaly.checkAnomaly [2, 2] 3 3).z_score =
      (if ([2, 2] : List ℝ) = [] then Anomaly.ZVal.fin 0
       else if (3 : ℝ) = Anomaly.meanOf [2, 2] then Anomaly.ZVal.fin 0
       else if Anomaly.meanOf [2, 2] < 3 then Anomaly.ZVal.posInf
       else Anomaly.ZVal.negInf) :=
  checkAnomaly_zero_stddev [2, 2] 3 3 (by
    norm_num [Anomaly.stddevOf, Anomaly.meanOf, Real.sqrt_eq_zero])

/-! ## C4: severity thresholds -/

/-- C4: severity is critical exactly when the absolute z-score reaches
the threshold, warning exactly when it reaches 0.66 times the threshold
but not the threshold, normal otherwise, and is_anomaly holds exactly in
the critical case. -/
theorem checkAnomaly_severity_thresholds (values : List ℝ) (cv t : ℝ) :
    ((Anomaly.checkAnomaly values cv t).severity = Anomaly.Severity.critical ↔
      Anomaly.zAbsGe (Anomaly.zScoreOf values cv) t) ∧
    ((Anomaly.checkAnomaly values cv t).severity = Anomaly.Severity.warning ↔
      (Anomaly.zAbsGe (Anomaly.zScoreOf values cv) (0.66 * t) ∧
        ¬ Anomaly.zAbsGe (Anomaly.zScoreOf values cv) t)) ∧
    ((Anomaly.checkAnomaly values cv t).severity = Anomaly.Severity.normal ↔
      (¬ Anomaly.zAbsGe (Anomaly.zScoreOf values cv) (0.66 * t) ∧
        ¬ Anomaly.zAbsGe (Anomaly.zScoreOf values cv) t)) ∧
    ((Anomaly.checkAnomaly values cv t).is_anomaly = true ↔
      (Anomaly.checkAnomaly values cv t).severity = Anomaly.Severity.critical) := by
  by_cases h1 : Anomaly.zAbsGe (Anomaly.zScoreOf values cv) t
  · simp [Anomaly.checkAnomaly, h1]
  · by_cases h2 : Anomaly.zAbsGe (Anomaly.zScoreOf values cv) (t * 0.66)
    · simp [Anomaly.checkAnomaly, h1, h2, mul_comm]
    · simp [Anomaly.checkAnomaly, h1, h2, mul_comm]

/-! ## C1: fraud classification -/

/-- Counterexample to C1 as stated: with similarity 0 (pattern anomaly,
0 < 0.9) and volume change 100 percent (volume anomaly, |100| at least
50), checkFraud returns fraud_type none, not the "both" value the claim
requires: the source masks fraud_type to undefined whenever is_fraud is
false. -/
theorem checkFraud_both_masked_cex :
    (Fraud.checkFraud shiftedDoubledDay (some hourOneBaseline)).map
        (fun r => (r.is_fraud, r.fraud_type, r.similarity, r.volume_change_percent)) =
      Except.ok (false, none, 0, 100) ∧
    (0 : ℝ) < Fraud.SIMILARITY_THRESHOLD ∧
    Fraud.VOLUME_CHANGE_THRESHOLD ≤ |(100 : ℝ)| := by
  refine ⟨?_, by norm_num [Fraud.SIMILARITY_THRESHOLD], by
    norm_num [Fraud.VOLUME_CHANGE_THRESHOLD]⟩
  have hsim : Fraud.cosineSimilarity shiftedDoubledDay.vector hourOneBaseline.vector =
      Except.ok 0 := by
    norm_num [Fraud.cosineSimilarity, shiftedDoubledDay, hourOneBaseline,
      hourZeroShape, hourOneShape, Real.sqrt_one]
  have hvc : Fraud.volumeChangeOf shiftedDoubledDay.total_count hourOneBaseline.avg_volume
      = 100 := by
    norm_num [Fraud.volumeChangeOf, shiftedDoubledDay, hourOneBaseline]
  have h1 : decide ((0 : ℝ) < Fraud.SIMILARITY_THRESHOLD) = true := by
    rw [decide_eq_true_eq]; norm_num [Fraud.SIMILARITY_THRESHOLD]
  have h2 : decide (|(100 : ℝ)| < Fraud.VOLUME_CHANGE_THRESHOLD) = false := by
    rw [decide_eq_false_iff_not]; norm_num [Fraud.VOLUME_CHANGE_THRESHOLD]
  simp only [Fraud.checkFraud, hsim, hvc, h1, h2, Except.map]
  norm_num [Fraud.round3, Fraud.round1, Fraud.jsRound]

/-- C1 amended: with a weekday baseline present, is_fraud holds exactly
when the pattern is anomalous (similarity below 0.9) and the volume is
not (absolute change below 50 percent), and the returned fraud_type is
"pattern" in exactly that case and absent otherwise — in particular it
is absent, not "both" or "volume", when a volume anomaly occurs. -/
theorem checkFraud_classification (cv : Fraud.HourlyVector)
    (b : Fraud.BaselineRecord) (s : ℝ)
    (hs : Fraud.cosineSimilarity cv.vector b.vector = Except.ok s) :
    (Fraud.checkFraud cv (some b)).map (fun r => (r.is_fraud, r.fraud_type)) =
      Except.ok
        ((decide (s < Fraud.SIMILARITY_THRESHOLD) &&
            !(decide (Fraud.VOLUME_CHANGE_THRESHOLD ≤
              |Fraud.volumeChangeOf cv.total_count b.avg_volume|))),
          (if s < Fraud.SIMILARITY_THRESHOLD ∧
              ¬ Fraud.VOLUME_CHANGE_THRESHOLD ≤
                |Fraud.volumeChangeOf cv.total_count b.avg_volume| then
            some Fraud.FraudType.pattern
          else none)) := by
  by_cases hp : s < Fraud.SIMILARITY_THRESHOLD
  · by_cases hv : |Fraud.volumeChangeOf cv.total_count b.avg_volume| <
        Fraud.VOLUME_CHANGE_THRESHOLD
    · simp [Fraud.checkFraud, hs, hp, hv, not_le.mpr hv, Except.map]
    · simp [Fraud.checkFraud, hs, hp, hv, not_lt.mp hv, Except.map]
  · by_cases hv : |Fraud.volumeChangeOf cv.total_count b.avg_volume| <
        Fraud.VOLUME_CHANGE_THRESHOLD
    · simp [Fraud.checkFraud, hs, hp, hv, not_le.mpr hv, Except.map]
    · simp [Fraud.checkFraud, hs, hp, hv, not_lt.mp hv, Except.map]

/-- Witness for C1 amended: a day identical in shape and volume to its
baseline has similarity 1 and volume change 0, so it is not fraud and no
fraud type is reported. -/
theorem checkFraud_classification_witness :
    (Fraud.checkFraud unchangedDay (some hourZeroBaseline)).map
        (fun r => (r.is_fraud, r.fraud_type)) =
      Except.ok
        ((decide ((1 : ℝ) < Fraud.SIMILARITY_THRESHOLD) &&
            !(decide (Fraud.VOLUME_CHANGE_THRESHOLD ≤
              |Fraud.volumeChangeOf unchangedDay.total_count hourZeroBaseline.avg_volume|))),
          (if (1 : ℝ) < Fraud.SIMILARITY_THRESHOLD ∧
              ¬ Fraud.VOLUME_CHANGE_THRESHOLD ≤
                |Fraud.volumeChangeOf unchangedDay.total_count hourZeroBaseline.avg_volume| then
            some Fraud.FraudType.pattern
          else none)) :=
  checkFraud_classification unchangedDay hourZeroBaseline 1 (by
    norm_num [Fraud.cosineSimilarity, unchangedDay, hourZeroBaseline,
      hourZeroShape, Real.sqrt_one])

/-! ## C5: sliding-window admission -/

/-- C5: a checkRateLimit call first discards the entries scored at or
before now minus the window, records the current attempt, and counts;
with count the number of live entries including the current attempt, it
returns allowed = (count at most limit), remaining = max 0 (limit -
count), and always populates limit and reset_in_seconds.  The current
attempt's member is fresh, as the source guarantees by appending a random
tag to the timestamp. -/
theorem checkRateLimit_admission (s : RateLimit.SortedSet) (nowSeconds : ℤ)
    (member : String) (limit : ℤ)
    (hfresh : ∀ e ∈ s, e.1 ≠ member) :
    (RateLimit.checkRateLimit s nowSeconds member limit).1 =
      { allowed := decide
          ((((RateLimit.zremrangebyscore s 0
              (nowSeconds - RateLimit.RATE_LIMIT_WINDOW_SECONDS)).length : ℤ) + 1) ≤ limit)
        limit := limit
        remaining := Max.max 0
          (limit - (((RateLimit.zremrangebyscore s 0
              (nowSeconds - RateLimit.RATE_LIMIT_WINDOW_SECONDS)).length : ℤ) + 1))
        reset_in_seconds := RateLimit.RATE_LIMIT_WINDOW_SECONDS } := by
  have h1 : (RateLimit.zremrangebyscore s 0
      (nowSeconds - RateLimit.RATE_LIMIT_WINDOW_SECONDS)).any
        (fun e => e.1 == member) = false := by
    rw [List.any_eq_false]
    intro e he
    have hmem : e ∈ s := List.mem_of_mem_filter he
    simpa using hfresh e hmem
  have h2 : RateLimit.zadd
      (RateLimit.zremrangebyscore s 0 (nowSeconds - RateLimit.RATE_LIMIT_WINDOW_SECONDS))
      nowSeconds member =
      RateLimit.zremrangebyscore s 0 (nowSeconds - RateLimit.RATE_LIMIT_WINDOW_SECONDS)
        ++ [(member, nowSeconds)] := by
    unfold RateLimit.zadd
    rw [h1]
    simp
  simp [RateLimit.checkRateLimit, h2, RateLimit.zcard]

/-- Witness for C5: one live entry plus the current attempt against a
limit of 2 is still allowed with 0 remaining. -/
theorem checkRateLimit_admission_witness :
    (RateLimit.checkRateLimit [("a", 100)] 130 "b" 2).1 =
      { allowed := decide
          ((((RateLimit.zremrangebyscore [("a", 100)] 0
              (130 - RateLimit.RATE_LIMIT_WINDOW_SECONDS)).length : ℤ) + 1) ≤ 2)
        limit := 2
        remaining := Max.max 0
          (2 - (((RateLimit.zremrangebyscore [("a", 100)] 0
              (130 - RateLimit.RATE_LIMIT_WINDOW_SECONDS)).length : ℤ) + 1))
        reset_in_seconds := RateLimit.RATE_LIMIT_WINDOW_SECONDS } :=
  checkRateLimit_admission [("a", 100)] 130 "b" 2 (by decide)

/-! ## C6: cosine similarity bounds -/

/-- The dot product of two equal-length lists as a sum over indices. -/
theorem listDot_eq_finsetSum (a : List ℝ) :
    ∀ b : List ℝ, a.length = b.length →
      ((a.zip b).map fun p => p.1 * p.2).sum =
        ∑ i in Finset.range a.length, a.getD i 0 * b.getD i 0 := by
  induction a with
  | nil => intro b _; simp
  | cons x xs ih =>
      intro b hb
      cases b with
      | nil => simp at hb
      | cons y ys =>
          have h' : xs.length = ys.length := by simpa using hb
          simp [Finset.sum_range_succ', ih ys h', add_comm]

/-- The sum of squares of a list as a sum over indices. -/
theorem listSq_eq_finsetSum (a : List ℝ) :
    (a.map fun x => x * x).sum =
      ∑ i in Finset.range a.length, a.getD i 0 * a.getD i 0 := by
  induction a with
  | nil => simp
  | cons x xs ih => simp [Finset.sum_range_succ', ih, add_comm]

/-- The dot product of element-wise non-negative lists is non-negative. -/
theorem listDot_nonneg (a b : List ℝ) (ha : ∀ x ∈ a, 0 ≤ x) (hb : ∀ x ∈ b, 0 ≤ x) :
    0 ≤ ((a.zip b).map fun p => p.1 * p.2).sum := by
  apply List.sum_nonneg
  intro x hx
  obtain ⟨p, hp, rfl⟩ := List.mem_map.mp hx
  obtain ⟨u, v⟩ := p
  have hm := List.of_mem_zip hp
  exact mul_nonneg (ha u hm.1) (hb v hm.2)

/-- A sum of squares is non-negative. -/
theorem listSq_nonneg (a : List ℝ) : 0 ≤ (a.map fun x => x * x).sum := by
  apply List.sum_nonneg
  intro x hx
  obtain ⟨z, _, rfl⟩ := List.mem_map.mp hx
  exact mul_self_nonneg z

/-- Zipping a list with itself multiplies each element with itself. -/
theorem zip_self_map_mul (a : List ℝ) :
    ((a.zip a).map fun p => p.1 * p.2) = a.map fun x => x * x := by
  induction a with
  | nil => simp
  | cons x xs ih => simp [ih]

/-- A sum of squares over a list with a non-zero element is positive. -/
theorem listSq_pos (a : List ℝ) {x : ℝ} (hxa : x ∈ a) (hxne : x ≠ 0) :
    0 < (a.map fun y => y * y).sum := by
  refine lt_of_lt_of_le (mul_self_pos.mpr hxne) ?_
  refine List.single_le_sum ?_ _ (List.mem_map_of_mem (fun y => y * y) hxa)
  intro y hy
  obtain ⟨z, _, rfl⟩ := List.mem_map.mp hy
  exact mul_self_nonneg z

/-- C6: on equal-length vectors with non-negative elements,
cosineSimilarity succeeds with a value in [0, 1]; it is exactly 1 for
identical non-zero vectors, and exactly 0 when either vector has zero
norm (a zero sum of squares) — the 0 being returned instead of dividing
by the zero denominator. -/
theorem cosineSimilarity_bounds (a b : List ℝ) (hlen : a.length = b.length)
    (ha : ∀ x ∈ a, 0 ≤ x) (hb : ∀ x ∈ b, 0 ≤ x) :
    Fraud.cosineSimilarity a b = Except.ok (simValue a b) ∧
    0 ≤ simValue a b ∧ simValue a b ≤ 1 ∧
    (a = b → (∃ x ∈ a, x ≠ 0) → simValue a b = 1) ∧
    (((a.map fun x => x * x).sum = 0 ∨ (b.map fun x => x * x).sum = 0) →
      simValue a b = 0) := by
  have hlen' : ¬ a.length ≠ b.length := by simp [hlen]
  have hcs : Fraud.cosineSimilarity a b =
      (if Real.sqrt ((a.map fun x => x * x).sum) *
            Real.sqrt ((b.map fun x => x * x).sum) = 0 then Except.ok 0
       else Except.ok ((((a.zip b).map fun p => p.1 * p.2).sum) /
          (Real.sqrt ((a.map fun x => x * x).sum) *
            Real.sqrt ((b.map fun x => x * x).sum)))) := by
    simp only [Fraud.cosineSimilarity, hlen', if_false]
  by_cases hd : Real.sqrt ((a.map fun x => x * x).sum) *
      Real.sqrt ((b.map fun x => x * x).sum) = 0
  · have hs0 : simValue a b = 0 := by
      unfold simValue
      rw [hcs, if_pos hd]
    refine ⟨by rw [hcs, if_pos hd, hs0], by rw [hs0], by rw [hs0]; norm_num,
      ?_, fun _ => hs0⟩
    intro hab hx
    exfalso
    obtain ⟨x, hxa, hxne⟩ := hx
    have hnApos : 0 < (a.map fun y => y * y).sum := listSq_pos a hxa hxne
    have hnBA : ((b.map fun y => y * y).sum) = (a.map fun y => y * y).sum := by
      rw [hab]
    have : 0 < Real.sqrt ((a.map fun y => y * y).sum) *
        Real.sqrt ((b.map fun y => y * y).sum) := by
      rw [hnBA]
      exact mul_pos (Real.sqrt_pos.mpr hnApos) (Real.sqrt_pos.mpr hnApos)
    exact absurd hd (ne_of_gt this)
  · have hdpos : 0 < Real.sqrt ((a.map fun x => x * x).sum) *
        Real.sqrt ((b.map fun x => x * x).sum) :=
      lt_of_le_of_ne (mul_nonneg (Real.sqrt_nonneg _) (Real.sqrt_nonneg _)) (Ne.symm hd)
    have hdot0 : 0 ≤ ((a.zip b).map fun p => p.1 * p.2).sum := listDot_nonneg a b ha hb
    have hcs2 : ((a.zip b).map fun p => p.1 * p.2).sum ≤
        Real.sqrt ((a.map fun x => x * x).sum) *
          Real.sqrt ((b.map fun x => x * x).sum) := by
      rw [listDot_eq_finsetSum a b hlen, listSq_eq_finsetSum a, listSq_eq_finsetSum b,
        ← hlen]
      have hmain := Real.sum_mul_le_sqrt_mul_sqrt (Finset.range a.length)
        (fun i => a.getD i 0) (fun i => b.getD i 0)
      simpa [pow_two] using hmain
    have hsv : simValue a b = (((a.zip b).map fun p => p.1 * p.2).sum) /
        (Real.sqrt ((a.map fun x => x * x).sum) *
          Real.sqrt ((b.map fun x => x * x).sum)) := by
      unfold simValue
      rw [hcs, if_neg hd]
    refine ⟨by rw [hcs, if_neg hd, hsv], by rw [hsv]; exact div_nonneg hdot0 hdpos.le,
      by rw [hsv]; exact (div_le_one hdpos).mpr hcs2, ?_, ?_⟩
    · intro hab _
      subst hab
      have hnA0 : (a.map fun x => x * x).sum ≠ 0 := by
        intro h0
        apply hd
        rw [h0, Real.sqrt_zero, zero_mul]
      rw [hsv, zip_self_map_mul a, Real.mul_self_sqrt (listSq_nonneg a), div_self hnA0]
    · intro h0
      exfalso
      apply hd
      rcases h0 with h0 | h0
      · rw [h0, Real.sqrt_zero, zero_mul]
      · rw [h0, Real.sqrt_zero, mul_zero]

/-- Witness for C6: two identical one-hot vectors give similarity 1. -/
theorem cosineSimilarity_bounds_witness :
    Fraud.cosineSimilarity hourZeroShape hourZeroShape =
      Except.ok (simValue hourZeroShape hourZeroShape) ∧
    0 ≤ simValue hourZeroShape hourZeroShape ∧
    simValue hourZeroShape hourZeroShape ≤ 1 ∧
    (hourZeroShape = hourZeroShape → (∃ x ∈ hourZeroShape, x ≠ 0) →
      simValue hourZeroShape hourZeroShape = 1) ∧
    (((hourZeroShape.map fun x => x * x).sum = 0 ∨
        (hourZeroShape.map fun x => x * x).sum = 0) →
      simValue hourZeroShape hourZeroShape = 0) :=
  cosineSimilarity_bounds hourZeroShape hourZeroShape rfl
    (by intro x hx; norm_num [hourZeroShape] at hx; rcases hx with h | h <;> norm_num [h])
    (by intro x hx; norm_num [hourZeroShape] at hx; rcases hx with h | h <;> norm_num [h])

/-! ## C9 and C10: batched idempotency -/

/-- In the overwrite branch of Map.set, reading the overwritten key
finds the new value exactly when the key was present. -/
theorem mapGet_overwrite_self (k : String) (v : Bool) :
    ∀ m : List (String × Bool),
      Dedup.mapGet (m.map fun p => if p.1 = k then (k, v) else p) k =
        (if m.any (fun p => decide (p.1 = k)) then some v else none) := by
  intro m
  induction m with
  | nil => simp [Dedup.mapGet]
  | cons p rest ih =>
      obtain ⟨pk, pv⟩ := p
      by_cases hp : pk = k
      · simp [Dedup.mapGet, hp]
      · simp [Dedup.mapGet, hp, ih]

/-- The overwrite branch of Map.set leaves other keys unchanged. -/
theorem mapGet_overwrite_ne (k k' : String) (v : Bool) (hne : k' ≠ k) :
    ∀ m : List (String × Bool),
      Dedup.mapGet (m.map fun p => if p.1 = k then (k, v) else p) k' =
        Dedup.mapGet m k' := by
  intro m
  induction m with
  | nil => simp
  | cons p rest ih =>
      obtain ⟨pk, pv⟩ := p
      by_cases hp : pk = k
      · have hne' : ¬ k = k' := fun h => hne h.symm
        simp [Dedup.mapGet, hp, hne', ih]
      · simp [Dedup.mapGet, hp, ih]

/-- Appending a fresh entry makes its key readable with its value. -/
theorem mapGet_append_self (k : String) (v : Bool) :
    ∀ m : List (String × Bool), (∀ p ∈ m, ¬ p.1 = k) →
      Dedup.mapGet (m ++ [(k, v)]) k = some v := by
  intro m
  induction m with
  | nil => intro _; simp [Dedup.mapGet]
  | cons p rest ih =>
      intro hall
      obtain ⟨pk, pv⟩ := p
      have hp : ¬ pk = k := hall (pk, pv) (List.mem_cons_self (pk, pv) rest)
      have hrest : ∀ q ∈ rest, ¬ q.1 = k := fun q hq => hall q (List.mem_cons_of_mem _ hq)
      simp [Dedup.mapGet, hp, ih hrest]

/-- Appending an entry for a different key leaves a read unchanged. -/
theorem mapGet_append_ne (k k' : String) (v : Bool) (hne : k' ≠ k) :
    ∀ m : List (String × Bool),
      Dedup.mapGet (m ++ [(k, v)]) k' = Dedup.mapGet m k' := by
  intro m
  induction m with
  | nil => simp [Dedup.mapGet, Ne.symm hne]
  | cons p rest ih =>
      obtain ⟨pk, pv⟩ := p
      by_cases hq : pk = k'
      · simp [Dedup.mapGet, hq]
      · simp [Dedup.mapGet, hq, ih]

/-- Reading the key just set by a Map.set returns the new value. -/
theorem mapGet_mapSet_self (m : List (String × Bool)) (k : String) (v : Bool) :
    Dedup.mapGet (Dedup.mapSet m k v) k = some v := by
  unfold Dedup.mapSet
  by_cases hany : m.any (fun p => decide (p.1 = k))
  · rw [if_pos hany, mapGet_overwrite_self, if_pos hany]
  · rw [if_neg hany]
    refine mapGet_append_self k v m ?_
    intro p hp hpk
    exact hany (List.any_eq_true.mpr ⟨p, hp, by simp [hpk]⟩)

/-- A Map.set for a different key leaves a read unchanged. -/
theorem mapGet_mapSet_ne (m : List (String × Bool)) (k k' : String) (v : Bool)
    (h : k' ≠ k) : Dedup.mapGet (Dedup.mapSet m k v) k' = Dedup.mapGet m k' := by
  unfold Dedup.mapSet
  by_cases hany : m.any (fun p => decide (p.1 = k))
  · rw [if_pos hany]
    exact mapGet_overwrite_ne k k' v h m
  · rw [if_neg hany]
    exact mapGet_append_ne k k' v h m

/-- Processing keys only ever adds marker keys to the store. -/
theorem execPipelineOk_mem (keys : List String) :
    ∀ (s : List String) (k : String), (k ∈ s ∨ k ∈ keys) →
      k ∈ (Dedup.execPipelineOk s keys).2 := by
  induction keys with
  | nil =>
      intro s k hk
      rcases hk with h | h
      · simpa [Dedup.execPipelineOk] using h
      · simp at h
  | cons k0 ks ih =>
      intro s k hk
      have hstep : k ∈ (Dedup.setNX s k0).2 ∨ k ∈ ks := by
        rcases hk with h | h
        · left
          unfold Dedup.setNX
          by_cases h0 : k0 ∈ s
          · simpa [h0] using h
          · simp [h0, h]
        · rcases List.mem_cons.mp h with h | h
          · left
            unfold Dedup.setNX
            by_cases h0 : k0 ∈ s
            · simpa [h0, h] using h0
            · simp [h0, h]
          · right; exact h
      simpa [Dedup.execPipelineOk] using ih (Dedup.setNX s k0).2 k hstep

/-- A batch slice that never mentions tid leaves the accumulated entry
for tid unchanged. -/
theorem collect_untouched (tid : String) :
    ∀ (ids : List String) (s : List String) (m : List (String × Bool)),
      tid ∉ ids →
      ∃ m', Dedup.collectResults ids
          (Dedup.execPipelineOk s (ids.map Dedup.dedupKey)).1 m = Except.ok m' ∧
        Dedup.mapGet m' tid = Dedup.mapGet m tid := by
  intro ids
  induction ids with
  | nil =>
      intro s m _
      exact ⟨m, rfl, rfl⟩
  | cons id ids ih =>
      intro s m hnm
      have hid : id ≠ tid := fun h => hnm (by simp [h])
      have hids : tid ∉ ids := fun h => hnm (List.mem_cons_of_mem _ h)
      obtain ⟨m', hc, hl⟩ := ih (Dedup.setNX s (Dedup.dedupKey id)).2
        (Dedup.mapSet m id ((Dedup.setNX s (Dedup.dedupKey id)).1 == some "OK")) hids
      refine ⟨m', ?_, ?_⟩
      · simpa [Dedup.execPipelineOk, Dedup.collectResults] using hc
      · rw [hl]
        exact mapGet_mapSet_ne m id tid _ (fun h => hid h.symm)

/-- Once the marker key for tid is in the store, every later occurrence
of tid in the batch reads a nil reply, so the map records false. -/
theorem collect_marked_false (tid : String) :
    ∀ (ids : List String) (s : List String) (m : List (String × Bool)),
      tid ∈ ids → Dedup.dedupKey tid ∈ s →
      ∃ m', Dedup.collectResults ids
          (Dedup.execPipelineOk s (ids.map Dedup.dedupKey)).1 m = Except.ok m' ∧
        Dedup.mapGet m' tid = some false := by
  intro ids
  induction ids with
  | nil =>
      intro s m hmem
      simp at hmem
  | cons id ids ih =>
      intro s m hmem hkey
      have hkey1 : Dedup.dedupKey tid ∈ (Dedup.setNX s (Dedup.dedupKey id)).2 := by
        unfold Dedup.setNX
        by_cases h0 : Dedup.dedupKey id ∈ s
        · simpa [h0] using hkey
        · simp [h0, hkey]
      by_cases hin : tid ∈ ids
      · obtain ⟨m', hc, hl⟩ := ih (Dedup.setNX s (Dedup.dedupKey id)).2
          (Dedup.mapSet m id ((Dedup.setNX s (Dedup.dedupKey id)).1 == some "OK")) hin hkey1
        exact ⟨m', by simpa [Dedup.execPipelineOk, Dedup.collectResults] using hc, hl⟩
      · have hidt : id = tid := by
          rcases List.mem_cons.mp hmem with h | h
          · exact h.symm
          · exact absurd h hin
        subst hidt
        have hr : (Dedup.setNX s (Dedup.dedupKey id)).1 = none := by
          unfold Dedup.setNX
          simp [hkey]
        obtain ⟨m', hc, hl⟩ := collect_untouched id ids
          (Dedup.setNX s (Dedup.dedupKey id)).2
          (Dedup.mapSet m id ((Dedup.setNX s (Dedup.dedupKey id)).1 == some "OK")) hin
        refine ⟨m', by simpa [Dedup.execPipelineOk, Dedup.collectResults] using hc, ?_⟩
        rw [hl, hr]
        simpa using mapGet_mapSet_self m id false

/-- A batch holding a not-yet-marked tid at least twice ends with the map
recording false for tid. -/
theorem collect_dup_false (tid : String) :
    ∀ (ids : List String) (s : List String) (m : List (String × Bool)),
      2 ≤ ids.count tid → Dedup.dedupKey tid ∉ s →
      ∃ m', Dedup.collectResults ids
          (Dedup.execPipelineOk s (ids.map Dedup.dedupKey)).1 m = Except.ok m' ∧
        Dedup.mapGet m' tid = some false := by
  intro ids
  induction ids with
  | nil =>
      intro s m hcnt
      simp at hcnt
  | cons id ids ih =>
      intro s m hcnt hnew
      by_cases hidt : id = tid
      · subst hidt
        have hmem : id ∈ ids := by
          have : 1 ≤ ids.count id := by
            have := hcnt
            rw [List.count_cons_self] at this
            omega
          exact List.count_pos_iff.mp this
        have hs1 : Dedup.dedupKey id ∈ (Dedup.setNX s (Dedup.dedupKey id)).2 := by
          unfold Dedup.setNX
          by_cases h0 : Dedup.dedupKey id ∈ s
          · simpa [h0] using h0
          · simp [h0]
        obtain ⟨m', hc, hl⟩ := collect_marked_false id ids
          (Dedup.setNX s (Dedup.dedupKey id)).2
          (Dedup.mapSet m id ((Dedup.setNX s (Dedup.dedupKey id)).1 == some "OK")) hmem hs1
        exact ⟨m', by simpa [Dedup.execPipelineOk, Dedup.collectResults] using hc, hl⟩
      · have hcnt' : 2 ≤ ids.count tid := by
          have := hcnt
          rw [List.count_cons_of_ne (fun h => hidt h.symm)] at this
          · exact this
        by_cases hkk : Dedup.dedupKey id = Dedup.dedupKey tid
        · have hmem : tid ∈ ids := List.count_pos_iff.mp (by omega)
          have hs1 : Dedup.dedupKey tid ∈ (Dedup.setNX s (Dedup.dedupKey id)).2 := by
            unfold Dedup.setNX
            rw [hkk]
            rw [if_neg hnew]
            simp
          obtain ⟨m', hc, hl⟩ := collect_marked_false tid ids
            (Dedup.setNX s (Dedup.dedupKey id)).2
            (Dedup.mapSet m id ((Dedup.setNX s (Dedup.dedupKey id)).1 == some "OK")) hmem hs1
          exact ⟨m', by simpa [Dedup.execPipelineOk, Dedup.collectResults] using hc, hl⟩
        · have hs1 : Dedup.dedupKey tid ∉ (Dedup.setNX s (Dedup.dedupKey id)).2 := by
            unfold Dedup.setNX
            by_cases h0 : Dedup.dedupKey id ∈ s
            · simpa [h0] using hnew
            · simp [h0]
              exact ⟨fun h => hkk h.symm, hnew⟩
          obtain ⟨m', hc, hl⟩ := ih (Dedup.setNX s (Dedup.dedupKey id)).2
            (Dedup.mapSet m id ((Dedup.setNX s (Dedup.dedupKey id)).1 == some "OK")) hcnt' hs1
          exact ⟨m', by simpa [Dedup.execPipelineOk, Dedup.collectResults] using hc, hl⟩

/-- C10: a batch that repeats a previously-unmarked transaction id
reports that id as a duplicate (false) in the returned map, even though
its marker was newly set by this very batch (the marker key is in the
store afterwards). -/
theorem checkAndMark_repeated_id_duplicate (store : List String)
    (txIds : List String) (tid : String)
    (hdup : 2 ≤ txIds.count tid) (hnew : Dedup.dedupKey tid ∉ store) :
    ((Dedup.runBatch store txIds).1).map (fun m => Dedup.mapGet m tid) =
      Except.ok (some false) ∧
    Dedup.dedupKey tid ∈ (Dedup.runBatch store txIds).2 := by
  have hmem : tid ∈ txIds := List.count_pos_iff.mp (by omega)
  constructor
  · obtain ⟨m', hc, hl⟩ := collect_dup_false tid txIds store [] hdup hnew
    cases txIds with
    | nil => simp at hmem
    | cons id ids =>
        simp only [Dedup.runBatch, Dedup.checkAndMarkTransactions, List.isEmpty_cons,
          Bool.false_eq_true, if_false]
        rw [hc]
        simp [Except.map, hl]
  · unfold Dedup.runBatch
    exact execPipelineOk_mem (txIds.map Dedup.dedupKey) store (Dedup.dedupKey tid)
      (Or.inr (List.mem_map_of_mem Dedup.dedupKey hmem))

/-- Witness for C10: the batch [t1, t1] against an empty store reports t1
as a duplicate and leaves its marker set. -/
theorem checkAndMark_repeated_id_duplicate_witness :
    ((Dedup.runBatch [] ["t1", "t1"]).1).map (fun m => Dedup.mapGet m "t1") =
      Except.ok (some false) ∧
    Dedup.dedupKey "t1" ∈ (Dedup.runBatch [] ["t1", "t1"]).2 :=
  checkAndMark_repeated_id_duplicate [] ["t1", "t1"] "t1" (by decide) (by decide)

/-- Collecting results aborts with the first per-command error. -/
theorem collect_error :
    ∀ (ids : List String) (prs : List (Option String × Option String))
      (m : List (String × Bool)),
      prs.length = ids.length → (∃ p ∈ prs, p.1 ≠ none) →
      (Dedup.collectResults ids prs m).toOption = none := by
  intro ids
  induction ids with
  | nil =>
      intro prs m hlen herr
      obtain ⟨p, hp, _⟩ := herr
      rw [List.length_nil, List.length_eq_zero] at hlen
      subst hlen
      simp at hp
  | cons id ids ih =>
      intro prs m hlen herr
      cases prs with
      | nil => simp at hlen
      | cons pr prs' =>
          cases hpr : pr.1 with
          | some e => simp [Dedup.collectResults, hpr, Except.toOption]
          | none =>
              obtain ⟨p, hp, hpe⟩ := herr
              rcases List.mem_cons.mp hp with h | h
              · exact absurd (h ▸ hpr) hpe
              · have hlen' : prs'.length = ids.length := by simpa using hlen
                simpa [Dedup.collectResults, hpr] using ih prs' _ hlen' ⟨p, h, hpe⟩

/-- C9: a non-empty batch whose pipeline fails as a whole (a null exec
response) or whose response carries any per-command error produces an
error and no outcome map at all. -/
theorem checkAndMark_fails_closed (txIds : List String)
    (resp : Option (List (Option String × Option String)))
    (hne : txIds ≠ [])
    (hfail : resp = none ∨ ∃ prs, resp = some prs ∧ prs.length = txIds.length ∧
      ∃ p ∈ prs, p.1 ≠ none) :
    (Dedup.checkAndMarkTransactions txIds resp).toOption = none := by
  have hempty : txIds.isEmpty = false := by
    cases txIds with
    | nil => exact absurd rfl hne
    | cons id ids => rfl
  rcases hfail with h | ⟨prs, hp, hlen, herr⟩
  · simp [Dedup.checkAndMarkTransactions, hempty, h, Except.toOption]
  · subst hp
    simpa [Dedup.checkAndMarkTransactions, hempty] using
      collect_error txIds prs [] hlen herr

/-- Witness for C9: a one-element batch whose only command errored yields
an error result, not a map. -/
theorem checkAndMark_fails_closed_witness :
    (Dedup.checkAndMarkTransactions ["t1"] (some [(some "boom", none)])).toOption
      = none :=
  checkAndMark_fails_closed ["t1"] (some [(some "boom", none)]) (by decide)
    (Or.inr ⟨[(some "boom", none)], rfl, rfl, ⟨(some "boom", none), by decide, by decide⟩⟩)

/-! ## C3: grouped versus ungrouped aggregates -/

/-- Counterexample to C3 as stated: for the MAX metric over two events
peaking at 5 and 7 in different regions, the grouped query returns total
12 (the sum of the per-group maxima, also the sum over the breakdown)
while the ungrouped query returns the true maximum 7. -/
theorem queryUsage_max_grouped_cex :
    (Usage.queryUsage maxCatalog twoRegionEvents "c" "storage_peak" 0 10
        (some "region")).map (fun r => ((r.breakdown.getD []).map Prod.snd).sum) =
      Except.ok 12 ∧
    (Usage.queryUsage maxCatalog twoRegionEvents "c" "storage_peak" 0 10
        (some "region")).map (fun r => r.value) = Except.ok 12 ∧
    (Usage.queryUsage maxCatalog twoRegionEvents "c" "storage_peak" 0 10 none).map
        (fun r => r.value) = Except.ok 7 ∧
    (12 : ℚ) ≠ 7 := by
  have hfilt : twoRegionEvents.filter (Usage.matchesQuery "c" "storage" 0 10) =
      twoRegionEvents := by
    simp [twoRegionEvents, Usage.matchesQuery]
    norm_num
  have hrows : Usage.groupedRows Usage.AggKind.max "gb_stored" "region" twoRegionEvents =
      [("a", 5), ("b", 7)] := by
    simp [Usage.groupedRows, Usage.groupDims, Usage.dimensionOf, Usage.jsonExtractString,
      twoRegionEvents, List.lookup, List.dedup_cons_of_mem, List.dedup_cons_of_not_mem,
      Usage.aggValue, Usage.jsonExtractFloat]
  have hbb : Usage.buildBreakdown [("a", 5), ("b", 7)] = ([("a", 5), ("b", 7)], 12) := by
    simp [Usage.buildBreakdown, Usage.insertJs, Usage.bucketKey]
    norm_num
  have hagg : Usage.aggValue Usage.AggKind.max "gb_stored" twoRegionEvents = 7 := by
    simp [Usage.aggValue, Usage.jsonExtractFloat, twoRegionEvents, List.lookup]
    norm_num
  have hq : Usage.queryUsage maxCatalog twoRegionEvents "c" "storage_peak" 0 10
      (some "region") = Except.ok
        { customer_id := "c", metric := "storage_peak", value := 12, unit := "GB",
          breakdown := some [("a", 5), ("b", 7)] } := by
    simp only [Usage.queryUsage, maxCatalog, List.find?]
    norm_num
    simp only [hfilt, hrows, hbb]
    exact ⟨trivial, trivial⟩
  have hu : Usage.queryUsage maxCatalog twoRegionEvents "c" "storage_peak" 0 10 none
      = Except.ok
        { customer_id := "c", metric := "storage_peak", value := 7, unit := "GB",
          breakdown := none } := by
    simp only [Usage.queryUsage, maxCatalog, List.find?]
    norm_num
    simp only [hfilt, hagg]
  refine ⟨?_, ?_, ?_, by norm_num⟩
  · rw [hq]
    simp [Except.map]
    norm_num
  · rw [hq]
    rfl
  · rw [hu]
    rfl

/-- Splitting a list by a Bool predicate splits a mapped sum. -/
theorem listSum_filter_split {α : Type} (p : α → Bool) (f : α → ℚ) :
    ∀ l : List α,
      ((l.filter p).map f).sum + ((l.filter (fun x => !(p x))).map f).sum =
        (l.map f).sum := by
  intro l
  induction l with
  | nil => simp
  | cons x xs ih =>
      cases hp : p x
      · have h1 : (x :: xs).filter p = xs.filter p := by
          simp [List.filter_cons, hp]
        have h2 : (x :: xs).filter (fun y => !(p y)) =
            x :: xs.filter (fun y => !(p y)) := by
          simp [List.filter_cons, hp]
        rw [h1, h2, List.map_cons, List.sum_cons, List.map_cons, List.sum_cons, ← ih]
        ring
      · have h1 : (x :: xs).filter p = x :: xs.filter p := by
          simp [List.filter_cons, hp]
        have h2 : (x :: xs).filter (fun y => !(p y)) =
            xs.filter (fun y => !(p y)) := by
          simp [List.filter_cons, hp]
        rw [h1, h2, List.map_cons, List.sum_cons, List.map_cons, List.sum_cons, ← ih]
        ring

/-- Summing a mapped quantity fiber-by-fiber over a duplicate-free cover
of the dimension values recovers the whole sum. -/
theorem listSum_fibers {α : Type} (dim : α → String) (f : α → ℚ) :
    ∀ (ds : List String) (l : List α), ds.Nodup → (∀ x ∈ l, dim x ∈ ds) →
      (ds.map (fun d => ((l.filter (fun x => decide (dim x = d))).map f).sum)).sum =
        (l.map f).sum := by
  intro ds
  induction ds with
  | nil =>
      intro l _ hcov
      have hl : l = [] := List.eq_nil_iff_forall_not_mem.mpr
        (fun a ha => by simpa using hcov a ha)
      simp [hl]
  | cons d ds ih =>
      intro l hnd hcov
      have hd : d ∉ ds := (List.nodup_cons.mp hnd).1
      have hnd' : ds.Nodup := (List.nodup_cons.mp hnd).2
      have hsplit := listSum_filter_split (fun x => decide (dim x = d)) f l
      have hrest : ∀ d' ∈ ds,
          (l.filter (fun x => !(decide (dim x = d)))).filter
              (fun x => decide (dim x = d')) =
            l.filter (fun x => decide (dim x = d')) := by
        intro d' hd'
        rw [List.filter_filter]
        refine List.filter_congr ?_
        intro x _
        have hd'd : ¬ d' = d := fun h => hd (h ▸ hd')
        by_cases hx : dim x = d'
        · have hxd : ¬ dim x = d := fun h => hd'd (hx.symm.trans h)
          simp [hx, hxd, hd'd]
        · simp [hx]
      have hcov' : ∀ x ∈ l.filter (fun x => !(decide (dim x = d))), dim x ∈ ds := by
        intro x hx
        have hxl : x ∈ l := List.mem_of_mem_filter hx
        have hxd : ¬ dim x = d := by
          have := List.of_mem_filter hx
          simpa using this
        rcases List.mem_cons.mp (hcov x hxl) with h | h
        · exact absurd h hxd
        · exact h
      have hih := ih (l.filter (fun x => !(decide (dim x = d)))) hnd' hcov'
      have hmap : (ds.map (fun d' =>
          ((l.filter (fun x => decide (dim x = d'))).map f).sum)).sum =
          (ds.map (fun d' =>
            (((l.filter (fun x => !(decide (dim x = d)))).filter
                (fun x => decide (dim x = d'))).map f).sum)).sum := by
        refine congrArg List.sum (List.map_congr_left ?_)
        intro d' hd'
        rw [hrest d' hd']
      rw [List.map_cons, List.sum_cons, hmap, hih, ← hsplit]

/-- A list of ones sums to the length. -/
theorem listSum_ones {α : Type} :
    ∀ l : List α, (l.map (fun _ => (1 : ℚ))).sum = (l.length : ℚ) := by
  intro l
  induction l with
  | nil => simp
  | cons x xs ih => simp [ih, add_comm]

/-- The breakdown loop over rows with duplicate-free bucket keys appends
one entry per row and totals the row values. -/
theorem buildBreakdown_foldl :
    ∀ (rows : List (String × ℚ)) (acc1 : List (String × ℚ)) (acc2 : ℚ),
      (rows.map (fun r => Usage.bucketKey r.1)).Nodup →
      (∀ k ∈ acc1.map Prod.fst, k ∉ rows.map (fun r => Usage.bucketKey r.1)) →
      rows.foldl (fun acc row =>
          (Usage.insertJs acc.1 (Usage.bucketKey row.1) row.2, acc.2 + row.2))
        (acc1, acc2) =
        (acc1 ++ rows.map (fun r => (Usage.bucketKey r.1, r.2)),
         acc2 + (rows.map Prod.snd).sum) := by
  intro rows
  induction rows with
  | nil =>
      intro acc1 acc2 _ _
      simp
  | cons row rows ih =>
      intro acc1 acc2 hnd hdisj
      have hhead : Usage.bucketKey row.1 ∉ rows.map (fun r => Usage.bucketKey r.1) :=
        (List.nodup_cons.mp (by simpa using hnd)).1
      have hnd' : (rows.map (fun r => Usage.bucketKey r.1)).Nodup :=
        (List.nodup_cons.mp (by simpa using hnd)).2
      have hfresh : ∀ k ∈ acc1.map Prod.fst, ¬ k = Usage.bucketKey row.1 := by
        intro k hk hkeq
        exact hdisj k hk (by simp [hkeq])
      have hins : Usage.insertJs acc1 (Usage.bucketKey row.1) row.2 =
          acc1 ++ [(Usage.bucketKey row.1, row.2)] := by
        unfold Usage.insertJs
        rw [if_neg]
        intro hany
        obtain ⟨p, hp, hpk⟩ := List.any_eq_true.mp hany
        exact hfresh p.1 (List.mem_map_of_mem Prod.fst hp) (by simpa using hpk)
      have hdisj' : ∀ k ∈ (acc1 ++ [(Usage.bucketKey row.1, row.2)]).map Prod.fst,
          k ∉ rows.map (fun r => Usage.bucketKey r.1) := by
        intro k hk
        rw [List.map_append] at hk
        rcases List.mem_append.mp hk with h | h
        · intro hcon
          exact hdisj k h (by simp [hcon])
        · have : k = Usage.bucketKey row.1 := by simpa using h
          rw [this]
          exact hhead
      rw [List.foldl_cons, hins]
      rw [ih (acc1 ++ [(Usage.bucketKey row.1, row.2)]) (acc2 + row.2) hnd' hdisj']
      simp [add_assoc]

/-- With duplicate-free bucket keys, buildBreakdown keeps every row under
its bucket key and totals the row values. -/
theorem buildBreakdown_nodup (rows : List (String × ℚ))
    (hnd : (rows.map (fun r => Usage.bucketKey r.1)).Nodup) :
    Usage.buildBreakdown rows =
      (rows.map (fun r => (Usage.bucketKey r.1, r.2)), (rows.map Prod.snd).sum) := by
  unfold Usage.buildBreakdown
  rw [buildBreakdown_foldl rows [] 0 hnd (by simp)]
  simp

/-- The grouped rows of a COUNT or SUM aggregation total to the ungrouped
aggregate over the same selection. -/
theorem groupedRows_total (agg : Usage.AggKind) (propName g : String)
    (F : List Usage.UsageEvent) (hmax : agg ≠ Usage.AggKind.max) :
    ((Usage.groupedRows agg propName g F).map Prod.snd).sum =
      Usage.aggValue agg propName F := by
  have hnd : (Usage.groupDims g F).Nodup := List.nodup_dedup _
  have hcov : ∀ e ∈ F, Usage.dimensionOf g e ∈ Usage.groupDims g F := by
    intro e he
    exact List.mem_dedup.mpr (List.mem_map_of_mem _ he)
  cases agg with
  | max => exact absurd rfl hmax
  | count =>
      have hfib := listSum_fibers (Usage.dimensionOf g) (fun _ => (1 : ℚ))
        (Usage.groupDims g F) F hnd hcov
      unfold Usage.groupedRows
      rw [List.map_map]
      have hrw : ∀ d ∈ Usage.groupDims g F,
          (Prod.snd ∘ fun d => (d, Usage.aggValue Usage.AggKind.count propName
            (F.filter fun e => decide (Usage.dimensionOf g e = d)))) d =
          ((F.filter fun e => decide (Usage.dimensionOf g e = d)).map
            (fun _ => (1 : ℚ))).sum := by
        intro d _
        simp [Usage.aggValue, listSum_ones]
      rw [List.map_congr_left hrw, hfib]
      simp [Usage.aggValue, listSum_ones]
  | sum =>
      have hfib := listSum_fibers (Usage.dimensionOf g)
        (fun e => Usage.jsonExtractFloat e.properties propName)
        (Usage.groupDims g F) F hnd hcov
      unfold Usage.groupedRows
      rw [List.map_map]
      have hrw : ∀ d ∈ Usage.groupDims g F,
          (Prod.snd ∘ fun d => (d, Usage.aggValue Usage.AggKind.sum propName
            (F.filter fun e => decide (Usage.dimensionOf g e = d)))) d =
          ((F.filter fun e => decide (Usage.dimensionOf g e = d)).map
            (fun e => Usage.jsonExtractFloat e.properties propName)).sum := by
        intro d _
        simp [Usage.aggValue]
      rw [List.map_congr_left hrw, hfib]
      simp [Usage.aggValue]

/-- The bucket key map is injective away from the literal "(empty)". -/
theorem bucketKey_inj (x y : String) (hx : x ≠ "(empty)") (hy : y ≠ "(empty)")
    (h : Usage.bucketKey x = Usage.bucketKey y) : x = y := by
  unfold Usage.bucketKey at h
  by_cases h1 : x = ""
  · by_cases h2 : y = ""
    · rw [h1, h2]
    · rw [if_pos h1, if_neg h2] at h
      exact absurd h.symm hy
  · by_cases h2 : y = ""
    · rw [if_neg h1, if_pos h2] at h
      exact absurd h hx
    · rwa [if_neg h1, if_neg h2] at h

/-- Core of the grouped/ungrouped agreement: over any selection whose
dimensions avoid the literal "(empty)", the breakdown built from the
grouped rows sums to the ungrouped aggregate, and a selection with an
event lacking the property gets an explicit "(empty)" bucket. -/
theorem queryUsage_grouped_core (agg : Usage.AggKind) (propName g : String)
    (F : List Usage.UsageEvent) (hmax : agg ≠ Usage.AggKind.max)
    (hcolF : ∀ e ∈ F, Usage.dimensionOf g e ≠ "(empty)") :
    (((Usage.buildBreakdown (Usage.groupedRows agg propName g F)).1).map
        Prod.snd).sum = Usage.aggValue agg propName F ∧
    ((∃ e ∈ F, Usage.dimensionOf g e = "") →
      "(empty)" ∈ ((Usage.buildBreakdown (Usage.groupedRows agg propName g F)).1).map
        Prod.fst) := by
  have hdims_ne : ∀ d ∈ Usage.groupDims g F, d ≠ "(empty)" := by
    intro d hd
    obtain ⟨e, he, hde⟩ := List.mem_map.mp (List.mem_dedup.mp hd)
    rw [← hde]
    exact hcolF e he
  have hkeymap : (Usage.groupedRows agg propName g F).map
      (fun r => Usage.bucketKey r.1) = (Usage.groupDims g F).map Usage.bucketKey := by
    unfold Usage.groupedRows
    rw [List.map_map]
    rfl
  have hkeys : ((Usage.groupedRows agg propName g F).map
      (fun r => Usage.bucketKey r.1)).Nodup := by
    rw [hkeymap]
    refine (List.nodup_dedup _).map_on ?_
    intro x hx y hy hxy
    exact bucketKey_inj x y (hdims_ne x hx) (hdims_ne y hy) hxy
  have hbd := buildBreakdown_nodup (Usage.groupedRows agg propName g F) hkeys
  constructor
  · rw [hbd]
    have : ((Usage.groupedRows agg propName g F).map
        (fun r => (Usage.bucketKey r.1, r.2))).map Prod.snd =
        (Usage.groupedRows agg propName g F).map Prod.snd := by
      rw [List.map_map]
      rfl
    rw [this]
    exact groupedRows_total agg propName g F hmax
  · rintro ⟨e, he, hdim⟩
    rw [hbd]
    have hd : "" ∈ Usage.groupDims g F := by
      rw [← hdim]
      exact List.mem_dedup.mpr (List.mem_map_of_mem _ he)
    have hrow : ("", Usage.aggValue agg propName
        (F.filter fun e' => decide (Usage.dimensionOf g e' = ""))) ∈
        Usage.groupedRows agg propName g F := by
      unfold Usage.groupedRows
      exact List.mem_map_of_mem _ hd
    have hkeyed := List.mem_map_of_mem (fun r => (Usage.bucketKey r.1, r.2)) hrow
    have hfst := List.mem_map_of_mem Prod.fst hkeyed
    simpa [Usage.bucketKey] using hfst

/-- C3 amended: for COUNT and SUM metrics, when no event in range carries
the literal grouping value "(empty)" (which would collide with the empty
bucket), the sum of the grouped breakdown values equals the ungrouped
aggregate for the same customer, metric and range, and events lacking the
grouping property are reported under the explicit "(empty)" bucket.  For
MAX the grouped total is the sum of per-group maxima, which differs from
the ungrouped maximum. -/
theorem queryUsage_grouped_total (catalog : List Usage.BillableMetric)
    (events : List Usage.UsageEvent) (cid m g : String) (sTs eTs : ℚ)
    (mdef : Usage.BillableMetric)
    (hfind : catalog.find? (fun x => x.code == m) = some mdef)
    (hmax : mdef.aggregation ≠ Usage.AggKind.max)
    (hprop : mdef.aggregation = Usage.AggKind.count ∨ mdef.property.isSome = true)
    (hcol : ∀ e ∈ events.filter (Usage.matchesQuery cid mdef.event_type sTs eTs),
      Usage.dimensionOf g e ≠ "(empty)") :
    (Usage.queryUsage catalog events cid m sTs eTs (some g)).map
        (fun r => ((r.breakdown.getD []).map Prod.snd).sum) =
      (Usage.queryUsage catalog events cid m sTs eTs none).map (fun r => r.value) ∧
    ((∃ e ∈ events.filter (Usage.matchesQuery cid mdef.event_type sTs eTs),
        Usage.dimensionOf g e = "") →
      (Usage.queryUsage catalog events cid m sTs eTs (some g)).map
          (fun r => decide ("(empty)" ∈ (r.breakdown.getD []).map Prod.fst)) =
        Except.ok true) := by
  cases hagg : mdef.aggregation with
  | max => exact absurd hagg hmax
  | count =>
      have hcore := queryUsage_grouped_core Usage.AggKind.count "" g
        (events.filter (Usage.matchesQuery cid mdef.event_type sTs eTs))
        (by decide) hcol
      have hq : Usage.queryUsage catalog events cid m sTs eTs (some g) =
          Except.ok
            { customer_id := cid
              metric := m
              value := (Usage.buildBreakdown (Usage.groupedRows Usage.AggKind.count ""
                g (events.filter (Usage.matchesQuery cid mdef.event_type sTs eTs)))).2
              unit := mdef.unit
              breakdown := some (Usage.buildBreakdown (Usage.groupedRows
                Usage.AggKind.count "" g (events.filter
                  (Usage.matchesQuery cid mdef.event_type sTs eTs)))).1 } := by
        simp only [Usage.queryUsage, hfind, hagg]
      have hu : Usage.queryUsage catalog events cid m sTs eTs none =
          Except.ok
            { customer_id := cid
              metric := m
              value := Usage.aggValue Usage.AggKind.count ""
                (events.filter (Usage.matchesQuery cid mdef.event_type sTs eTs))
              unit := mdef.unit
              breakdown := none } := by
        simp only [Usage.queryUsage, hfind, hagg]
      refine ⟨?_, ?_⟩
      · rw [hq, hu]
        simp only [Except.map, Option.getD]
        exact congrArg Except.ok hcore.1
      · intro hex
        rw [hq]
        simp only [Except.map, Option.getD]
        exact congrArg Except.ok (decide_eq_true (hcore.2 hex))
  | sum =>
      have hps : mdef.property.isSome = true := by
        rcases hprop with h | h
        · rw [hagg] at h
          cases h
        · exact h
      obtain ⟨p, hp⟩ := Option.isSome_iff_exists.mp hps
      have hcore := queryUsage_grouped_core Usage.AggKind.sum p g
        (events.filter (Usage.matchesQuery cid mdef.event_type sTs eTs))
        (by decide) hcol
      have hq : Usage.queryUsage catalog events cid m sTs eTs (some g) =
          Except.ok
            { customer_id := cid
              metric := m
              value := (Usage.buildBreakdown (Usage.groupedRows Usage.AggKind.sum p
                g (events.filter (Usage.matchesQuery cid mdef.event_type sTs eTs)))).2
              unit := mdef.unit
              breakdown := some (Usage.buildBreakdown (Usage.groupedRows
                Usage.AggKind.sum p g (events.filter
                  (Usage.matchesQuery cid mdef.event_type sTs eTs)))).1 } := by
        simp only [Usage.queryUsage, hfind, hagg, hp]
      have hu : Usage.queryUsage catalog events cid m sTs eTs none =
          Except.ok
            { customer_id := cid
              metric := m
              value := Usage.aggValue Usage.AggKind.sum p
                (events.filter (Usage.matchesQuery cid mdef.event_type sTs eTs))
              unit := mdef.unit
              breakdown := none } := by
        simp only [Usage.queryUsage, hfind, hagg, hp]
      refine ⟨?_, ?_⟩
      · rw [hq, hu]
        simp only [Except.map, Option.getD]
        exact congrArg Except.ok hcore.1
      · intro hex
        rw [hq]
        simp only [Except.map, Option.getD]
        exact congrArg Except.ok (decide_eq_true (hcore.2 hex))

/-- Witness for C3 amended: two api_request events, one in region "a" and
one without a region, counted grouped and ungrouped over the same range. -/
theorem queryUsage_grouped_total_witness :
    (Usage.queryUsage countCatalog regionAndBareEvents "c" "api_calls" 0 10
        (some "region")).map
        (fun r => ((r.breakdown.getD []).map Prod.snd).sum) =
      (Usage.queryUsage countCatalog regionAndBareEvents "c" "api_calls" 0 10 none).map
        (fun r => r.value) ∧
    ((∃ e ∈ regionAndBareEvents.filter
        (Usage.matchesQuery "c" countMetric.event_type 0 10),
        Usage.dimensionOf "region" e = "") →
      (Usage.queryUsage countCatalog regionAndBareEvents "c" "api_calls" 0 10
          (some "region")).map
          (fun r => decide ("(empty)" ∈ (r.breakdown.getD []).map Prod.fst)) =
        Except.ok true) :=
  queryUsage_grouped_total countCatalog regionAndBareEvents "c" "api_calls" "region"
    0 10 countMetric
    (by simp [countCatalog, countMetric, List.find?])
    (by decide)
    (Or.inl rfl)
    (by
      intro e he
      have hfe : regionAndBareEvents.filter
          (Usage.matchesQuery "c" countMetric.event_type 0 10) =
          regionAndBareEvents := by
        simp [regionAndBareEvents, Usage.matchesQuery, countMetric]
        norm_num
      rw [hfe] at he
      have he' : e = regionAndBareEvents.get ⟨0, by simp [regionAndBareEvents]⟩ ∨
          e = regionAndBareEvents.get ⟨1, by simp [regionAndBareEvents]⟩ := by
        simpa [regionAndBareEvents] using he
      rcases he' with rfl | rfl <;>
        simp [regionAndBareEvents, Usage.dimensionOf, Usage.jsonExtractString, List.lookup])

end MeterFlow
